import Mathlib

/-!
Shallow embedding of the traefik-cors repository (packages `cors` and
`traefik`): the CORS header-decision rules, preflight classification,
the precomputed cache built by `NewHandler`, and the two `ServeHTTP`
orchestrations, translated from `src/cors/cors.go` and
`src/traefik/plugin.go`.
-/

namespace TraefikCors

/-- `HeaderOrigin` constant from cors.go. -/
def HeaderOrigin : String := "Origin"

/-- `HeaderVary` constant from cors.go. -/
def HeaderVary : String := "Vary"

/-- `HeaderAllowCredentials` constant from cors.go. -/
def HeaderAllowCredentials : String := "Access-Control-Allow-Credentials"

/-- `HeaderAllowOrigin` constant from cors.go. -/
def HeaderAllowOrigin : String := "Access-Control-Allow-Origin"

/-- `HeaderAllowHeaders` constant from cors.go. -/
def HeaderAllowHeaders : String := "Access-Control-Allow-Headers"

/-- `HeaderAllowMethods` constant from cors.go. -/
def HeaderAllowMethods : String := "Access-Control-Allow-Methods"

/-- `HeaderExposeHeaders` constant from cors.go. -/
def HeaderExposeHeaders : String := "Access-Control-Expose-Headers"

/-- `HeaderMaxAge` constant from cors.go. -/
def HeaderMaxAge : String := "Access-Control-Max-Age"

/-- `HeaderRequestMethod` constant from cors.go. -/
def HeaderRequestMethod : String := "Access-Control-Request-Method"

/-- `HeaderRequestHeaders` constant from cors.go. -/
def HeaderRequestHeaders : String := "Access-Control-Request-Headers"

/-- `HeaderValueWildcard` constant from cors.go. -/
def HeaderValueWildcard : String := "*"

/-- `http.MethodOptions` from Go's net/http. -/
def MethodOptions : String := "OPTIONS"

/-- `DefaultMaxAge` constant from cors.go. -/
def DefaultMaxAge : Int := 5

/-- A CORS request (`type Request http.Request` in cors.go), viewed through
the only observations the package makes of it: the HTTP method and the values
returned by `Header.Get` for the `Origin`, `Access-Control-Request-Method`
and `Access-Control-Request-Headers` header names (Go's `Header.Get` returns
`""` when the header is absent, so an absent header is the empty string). -/
structure Request where
  Method : String
  Origin : String
  RequestMethod : String
  RequestHeaders : String
deriving DecidableEq, Repr

/-- `Request.IsPreflight` from cors.go: method is OPTIONS and the three CORS
request headers are all non-empty. -/
def Request.IsPreflight (r : Request) : Bool :=
  r.Method == MethodOptions &&
    r.Origin != "" &&
    r.RequestMethod != "" &&
    r.RequestHeaders != ""

/-- `Options` struct from cors.go.  The Go `cache` field is a
`map[string]string`; it is modelled as an association list, with lookup
defaulting to `""` exactly as a Go map read of a missing key does. -/
structure Options where
  AllowCredentials : Bool
  AllowHeaders : List String
  AllowMethods : List String
  AllowOrigins : List String
  ExposeHeaders : List String
  MaxAge : Int
  cache : List (String × String)
deriving DecidableEq, Repr

/-- Reading key `k` from a Go `map[string]string`: the stored value, or `""`
when the key is absent (also on a nil map, modelled by `[]`). -/
def mapGet (m : List (String × String)) (k : String) : String :=
  match m.find? (fun p => p.1 == k) with
  | some p => p.2
  | none => ""

/-- The loop of `Options.GetAllowOrigin`: Go's
`for _, ao := range o.AllowOrigins { switch ao { case wildcard: return
wildcard; case origin: result = origin } }` with accumulator `result`.
The wildcard case is listed first in the Go switch, so it is tested first. -/
def allowOriginLoop (l : List String) (origin result : String) : String :=
  match l with
  | [] => result
  | ao :: rest =>
    if ao = HeaderValueWildcard then HeaderValueWildcard
    else if ao = origin then allowOriginLoop rest origin origin
    else allowOriginLoop rest origin result

/-- `Options.GetAllowOrigin` from cors.go. -/
def Options.GetAllowOrigin (o : Options) (request : Request) : String :=
  allowOriginLoop o.AllowOrigins request.Origin ""

/-- `Options.GetAllowCredentials` from cors.go. -/
def Options.GetAllowCredentials (o : Options) : String :=
  if o.AllowCredentials then "true" else ""

/-- The scan `for _, x := range l { if x == wildcard { return wildcard } }`
shared by `GetAllowMethods`, `GetAllowHeaders` and `GetExposeHeaders`. -/
def wildcardScan (l : List String) : Bool :=
  match l with
  | [] => false
  | x :: rest => if x = HeaderValueWildcard then true else wildcardScan rest

/-- `Options.GetAllowMethods` from cors.go: wildcard if present anywhere,
else `strings.Join(o.AllowMethods, ", ")`. -/
def Options.GetAllowMethods (o : Options) : String :=
  if wildcardScan o.AllowMethods then HeaderValueWildcard
  else String.intercalate ", " o.AllowMethods

/-- `Options.GetAllowHeaders` from cors.go. -/
def Options.GetAllowHeaders (o : Options) : String :=
  if wildcardScan o.AllowHeaders then HeaderValueWildcard
  else String.intercalate ", " o.AllowHeaders

/-- `Options.GetMaxAge` from cors.go: `strconv.Itoa(o.MaxAge)`, the decimal
rendering of the integer (`Int.repr` is Lean's decimal rendering, printing
negative numbers with a leading minus sign, as `strconv.Itoa` does). -/
def Options.GetMaxAge (o : Options) : String :=
  Int.repr o.MaxAge

/-- `Options.GetExposeHeaders` from cors.go. -/
def Options.GetExposeHeaders (o : Options) : String :=
  if wildcardScan o.ExposeHeaders then HeaderValueWildcard
  else String.intercalate ", " o.ExposeHeaders

/-- `Options.GetVary` from cors.go: `"Origin"` when `len(o.AllowOrigins) > 1`,
else `""`. -/
def Options.GetVary (o : Options) : String :=
  if o.AllowOrigins.length > 1 then HeaderOrigin else ""

/-- `Options.NewHandler` from cors.go: populates `o.cache` with the four
request-independent header values, keyed by header name, and returns the
handler (which shares the same `Options` value). -/
def Options.NewHandler (o : Options) : Options :=
  { o with cache :=
      [(HeaderAllowMethods, o.GetAllowMethods),
       (HeaderAllowHeaders, o.GetAllowHeaders),
       (HeaderExposeHeaders, o.GetExposeHeaders),
       (HeaderMaxAge, o.GetMaxAge)] }

/-- The response writer as observed by this package: the response headers
(`Set` replaces all values for a name, `Add` appends one) and the status
code once `WriteHeader` has been called. -/
structure ResponseWriter where
  headers : List (String × String)
  status : Option Nat
deriving DecidableEq, Repr

/-- `rw.Header().Set(k, v)`: replace all existing values for `k` by `v`. -/
def headerSet (rw : ResponseWriter) (k v : String) : ResponseWriter :=
  { rw with headers := rw.headers.filter (fun p => p.1 != k) ++ [(k, v)] }

/-- `rw.Header().Add(k, v)`: append a value for `k`. -/
def headerAdd (rw : ResponseWriter) (k v : String) : ResponseWriter :=
  { rw with headers := rw.headers ++ [(k, v)] }

/-- `rw.Header().Get(k)`: the first value for `k`, or `""` when absent. -/
def headerGet (rw : ResponseWriter) (k : String) : String :=
  match rw.headers.find? (fun p => p.1 == k) with
  | some p => p.2
  | none => ""

/-- Go's `if v := ...; v != "" { rw.Header().Set(k, v) }` pattern used
throughout `handler.ServeHTTP`: set the header only when the value is
non-empty. -/
def setIf (rw : ResponseWriter) (k v : String) : ResponseWriter :=
  if v != "" then headerSet rw k v else rw

/-- Go's `if v := ...; v != "" { rw.Header().Add(k, v) }` pattern used for
the Vary header in `handler.ServeHTTP`. -/
def addIf (rw : ResponseWriter) (k v : String) : ResponseWriter :=
  if v != "" then headerAdd rw k v else rw

/-- `handler.ServeHTTP` from cors.go: add Vary, set Allow-Origin and
Allow-Credentials when non-empty; then, on a preflight request, set
Allow-Methods, Allow-Headers and Max-Age from the cache (each when
non-empty) and write status 204; otherwise set Expose-Headers from the
cache (when non-empty). -/
def serveHTTP (o : Options) (req : Request) (rw : ResponseWriter) :
    ResponseWriter :=
  let rw := addIf rw HeaderVary o.GetVary
  let rw := setIf rw HeaderAllowOrigin (o.GetAllowOrigin req)
  let rw := setIf rw HeaderAllowCredentials o.GetAllowCredentials
  if req.IsPreflight then
    let rw := setIf rw HeaderAllowMethods (mapGet o.cache HeaderAllowMethods)
    let rw := setIf rw HeaderAllowHeaders (mapGet o.cache HeaderAllowHeaders)
    let rw := setIf rw HeaderMaxAge (mapGet o.cache HeaderMaxAge)
    { rw with status := some 204 }
  else
    setIf rw HeaderExposeHeaders (mapGet o.cache HeaderExposeHeaders)

/-- `CorsPlugin.ServeHTTP` from plugin.go: run the CORS handler, then call
the next-stage handler unless the request is a preflight.  The second
component counts how many times the next-stage handler is invoked. -/
def pluginServeHTTP (o : Options) (req : Request) (rw : ResponseWriter) :
    ResponseWriter × Nat :=
  let rw := serveHTTP o req rw
  if req.IsPreflight then (rw, 0) else (rw, 1)

/-- Modelled from the spec: a handler that recomputes the four
request-independent header values on every request instead of reading them
from the precomputed cache ("the cached-value handler is equivalent to one
that recomputes these rules on each request"). -/
def serveHTTPRecompute (o : Options) (req : Request) (rw : ResponseWriter) :
    ResponseWriter :=
  let rw := addIf rw HeaderVary o.GetVary
  let rw := setIf rw HeaderAllowOrigin (o.GetAllowOrigin req)
  let rw := setIf rw HeaderAllowCredentials o.GetAllowCredentials
  if req.IsPreflight then
    let rw := setIf rw HeaderAllowMethods o.GetAllowMethods
    let rw := setIf rw HeaderAllowHeaders o.GetAllowHeaders
    let rw := setIf rw HeaderMaxAge o.GetMaxAge
    { rw with status := some 204 }
  else
    setIf rw HeaderExposeHeaders o.GetExposeHeaders

/-- Calling the pointer-receiver Go method `GetAllowOrigin`: the returned
string paired with the receiver's state after the call.  The method body
only reads from `o` and performs no assignment, so the state after the call
is `o` itself; the pair records the observable effect of one invocation. -/
def GetAllowOriginCall (o : Options) (r : Request) : String × Options :=
  (o.GetAllowOrigin r, o)

/-- Calling the Go method `GetAllowCredentials`: result and state after. -/
def GetAllowCredentialsCall (o : Options) : String × Options :=
  (o.GetAllowCredentials, o)

/-- Calling the Go method `GetAllowMethods`: result and state after. -/
def GetAllowMethodsCall (o : Options) : String × Options :=
  (o.GetAllowMethods, o)

/-- Calling the Go method `GetAllowHeaders`: result and state after. -/
def GetAllowHeadersCall (o : Options) : String × Options :=
  (o.GetAllowHeaders, o)

/-- Calling the Go method `GetExposeHeaders`: result and state after. -/
def GetExposeHeadersCall (o : Options) : String × Options :=
  (o.GetExposeHeaders, o)

/-- Calling the Go method `GetMaxAge`: result and state after. -/
def GetMaxAgeCall (o : Options) : String × Options :=
  (o.GetMaxAge, o)

/-- Calling the Go method `GetVary`: result and state after. -/
def GetVaryCall (o : Options) : String × Options :=
  (o.GetVary, o)

/-! ### Helper lemmas about the embedded operations -/

lemma wildcardScan_iff (l : List String) :
    wildcardScan l = true ↔ HeaderValueWildcard ∈ l := by
  induction l with
  | nil => simp [wildcardScan]
  | cons x rest ih =>
    by_cases h : x = HeaderValueWildcard
    · subst h; simp [wildcardScan]
    · simp only [wildcardScan, if_neg h, ih, List.mem_cons]
      constructor
      · exact fun hm => Or.inr hm
      · rintro (he | hm)
        · exact absurd he.symm h
        · exact hm

lemma allowOriginLoop_of_wildcard_mem (l : List String) (origin result : String)
    (h : HeaderValueWildcard ∈ l) :
    allowOriginLoop l origin result = HeaderValueWildcard := by
  revert h
  induction l generalizing result with
  | nil => intro h; cases h
  | cons a rest ih =>
    intro h
    by_cases ha : a = HeaderValueWildcard
    · simp [allowOriginLoop, ha]
    · have hm : HeaderValueWildcard ∈ rest := by
        rcases List.mem_cons.mp h with he | hm
        · exact absurd he.symm ha
        · exact hm
      by_cases ho : a = origin
      · simp [allowOriginLoop, ha, ho, ih origin hm]
      · simp [allowOriginLoop, ha, ho, ih result hm]

lemma allowOriginLoop_of_not_wildcard (l : List String) (origin result : String)
    (hw : HeaderValueWildcard ∉ l) :
    allowOriginLoop l origin result = if origin ∈ l then origin else result := by
  revert hw
  induction l generalizing result with
  | nil => intro _; simp [allowOriginLoop]
  | cons a rest ih =>
    intro hw
    have ha : a ≠ HeaderValueWildcard := fun he => hw (he ▸ List.mem_cons_self a rest)
    have hw' : HeaderValueWildcard ∉ rest := fun hm => hw (List.mem_cons_of_mem a hm)
    by_cases ho : a = origin
    · subst ho
      have h1 : allowOriginLoop (a :: rest) a result = allowOriginLoop rest a a := by
        simp [allowOriginLoop, ha]
      rw [h1, ih a hw', ite_self, if_pos (List.mem_cons_self a rest)]
    · have hne : ¬origin = a := fun he => ho he.symm
      simp [allowOriginLoop, ha, ho, ih result hw', List.mem_cons, hne]

lemma find?_filter_self (l : List (String × String)) (k v : String) :
    ((l.filter fun p => p.1 != k) ++ [(k, v)]).find? (fun p => p.1 == k) =
      some (k, v) := by
  induction l with
  | nil => simp [List.find?]
  | cons a t ih =>
    by_cases h : a.1 = k
    · have hb : (a.1 != k) = false := by simp [h]
      simp only [List.filter_cons, hb, Bool.false_eq_true, if_false, ih]
    · have hb : (a.1 != k) = true := by simp [h]
      have hb' : (a.1 == k) = false := by simp [h]
      simp only [List.filter_cons, hb, if_true, List.cons_append, List.find?, hb', ih]

lemma find?_filter_ne (l : List (String × String)) (k k' v : String) (h : k ≠ k') :
    ((l.filter fun p => p.1 != k') ++ [(k', v)]).find? (fun p => p.1 == k) =
      l.find? (fun p => p.1 == k) := by
  induction l with
  | nil =>
    have : (k' == k) = false := by simp [Ne.symm h]
    simp [List.find?, this]
  | cons a t ih =>
    by_cases hk' : a.1 = k'
    · have hb : (a.1 != k') = false := by simp [hk']
      have hb' : (a.1 == k) = false := by simp [hk', Ne.symm h]
      simp only [List.filter_cons, hb, Bool.false_eq_true, if_false, ih, List.find?, hb']
    · have hb : (a.1 != k') = true := by simp [hk']
      by_cases hk : a.1 = k
      · have hb' : (a.1 == k) = true := by simp [hk]
        simp only [List.filter_cons, hb, if_true, List.cons_append, List.find?, hb']
      · have hb' : (a.1 == k) = false := by simp [hk]
        simp only [List.filter_cons, hb, if_true, List.cons_append, List.find?, hb', ih]

lemma find?_append_ne (l : List (String × String)) (k k' v : String) (h : k ≠ k') :
    (l ++ [(k', v)]).find? (fun p => p.1 == k) = l.find? (fun p => p.1 == k) := by
  induction l with
  | nil =>
    have : (k' == k) = false := by simp [Ne.symm h]
    simp [List.find?, this]
  | cons a t ih =>
    by_cases hk : a.1 = k
    · have hb' : (a.1 == k) = true := by simp [hk]
      simp only [List.cons_append, List.find?, hb']
    · have hb' : (a.1 == k) = false := by simp [hk]
      simp only [List.cons_append, List.find?, hb', List.append_eq, ih]

lemma headerGet_headerSet_self (rw : ResponseWriter) (k v : String) :
    headerGet (headerSet rw k v) k = v := by
  show (match ((rw.headers.filter fun p => p.1 != k) ++ [(k, v)]).find?
      (fun p => p.1 == k) with
    | some p => p.2
    | none => "") = v
  rw [find?_filter_self]

lemma headerGet_headerSet_ne (rw : ResponseWriter) (k' v k : String) (h : k ≠ k') :
    headerGet (headerSet rw k' v) k = headerGet rw k := by
  simp [headerGet, headerSet, find?_filter_ne _ _ _ v h]

lemma headerGet_headerAdd_ne (rw : ResponseWriter) (k' v k : String) (h : k ≠ k') :
    headerGet (headerAdd rw k' v) k = headerGet rw k := by
  simp [headerGet, headerAdd, find?_append_ne _ _ _ v h]

lemma headerGet_mk_status (rw : ResponseWriter) (s : Option Nat) (k : String) :
    headerGet { rw with status := s } k = headerGet rw k := rfl

lemma headerGet_setIf_self (rw : ResponseWriter) (k v : String) :
    headerGet (setIf rw k v) k = if v != "" then v else headerGet rw k := by
  unfold setIf
  by_cases hv : (v != "") = true
  · simp only [hv, if_true, headerGet_headerSet_self]
  · simp only [Bool.not_eq_true] at hv
    simp only [hv, Bool.false_eq_true, if_false]

lemma headerGet_setIf_ne (rw : ResponseWriter) (k' v k : String) (h : k ≠ k') :
    headerGet (setIf rw k' v) k = headerGet rw k := by
  unfold setIf
  split
  · exact headerGet_headerSet_ne _ _ _ _ h
  · rfl

lemma headerGet_addIf_ne (rw : ResponseWriter) (k' v k : String) (h : k ≠ k') :
    headerGet (addIf rw k' v) k = headerGet rw k := by
  unfold addIf
  split
  · exact headerGet_headerAdd_ne _ _ _ _ h
  · rfl

lemma toDigitsCore_ne_nil (b : Nat) (f : Nat) :
    ∀ (n : Nat) (ds : List Char), ds ≠ [] → Nat.toDigitsCore b f n ds ≠ [] := by
  induction f with
  | zero => intro n ds h; simpa [Nat.toDigitsCore] using h
  | succ f ih =>
    intro n ds _
    simp only [Nat.toDigitsCore]
    split
    · simp
    · exact ih _ _ (by simp)

lemma toDigits_ne_nil (b n : Nat) : Nat.toDigits b n ≠ [] := by
  unfold Nat.toDigits
  simp only [Nat.toDigitsCore]
  split
  · simp
  · exact toDigitsCore_ne_nil _ _ _ _ (by simp)

lemma nat_repr_ne_empty (n : Nat) : Nat.repr n ≠ "" := by
  intro h
  exact toDigits_ne_nil 10 n (congrArg String.data h)

lemma int_repr_ne_empty (i : Int) : Int.repr i ≠ "" := by
  cases i with
  | ofNat m => exact nat_repr_ne_empty m
  | negSucc m =>
    intro h
    have hd := congrArg String.data h
    rw [show (Int.negSucc m).repr = "-" ++ Nat.repr (m + 1) from rfl] at hd
    simp [String.data_append] at hd

lemma setIf_status (rw : ResponseWriter) (k v : String) :
    (setIf rw k v).status = rw.status := by
  unfold setIf
  split <;> rfl

lemma addIf_status (rw : ResponseWriter) (k v : String) :
    (addIf rw k v).status = rw.status := by
  unfold addIf
  split <;> rfl

lemma serveHTTP_preflight_eq (o : Options) (req : Request) (rw : ResponseWriter)
    (h : req.IsPreflight = true) :
    serveHTTP o req rw =
      { setIf (setIf (setIf (setIf (setIf (addIf rw HeaderVary o.GetVary)
            HeaderAllowOrigin (o.GetAllowOrigin req))
            HeaderAllowCredentials o.GetAllowCredentials)
            HeaderAllowMethods (mapGet o.cache HeaderAllowMethods))
            HeaderAllowHeaders (mapGet o.cache HeaderAllowHeaders))
            HeaderMaxAge (mapGet o.cache HeaderMaxAge) with
        status := some 204 } := by
  simp only [serveHTTP]
  rw [if_pos h]

lemma serveHTTP_nonpreflight_eq (o : Options) (req : Request) (rw : ResponseWriter)
    (h : req.IsPreflight = false) :
    serveHTTP o req rw =
      setIf (setIf (setIf (addIf rw HeaderVary o.GetVary)
          HeaderAllowOrigin (o.GetAllowOrigin req))
          HeaderAllowCredentials o.GetAllowCredentials)
        HeaderExposeHeaders (mapGet o.cache HeaderExposeHeaders) := by
  simp only [serveHTTP]
  rw [if_neg (by simp [h])]

lemma mapGet_newHandler_allowMethods (o : Options) :
    mapGet o.NewHandler.cache HeaderAllowMethods = o.GetAllowMethods := rfl

lemma mapGet_newHandler_allowHeaders (o : Options) :
    mapGet o.NewHandler.cache HeaderAllowHeaders = o.GetAllowHeaders := rfl

lemma mapGet_newHandler_exposeHeaders (o : Options) :
    mapGet o.NewHandler.cache HeaderExposeHeaders = o.GetExposeHeaders := rfl

lemma mapGet_newHandler_maxAge (o : Options) :
    mapGet o.NewHandler.cache HeaderMaxAge = o.GetMaxAge := rfl

lemma newHandler_getAllowMethods (o : Options) :
    o.NewHandler.GetAllowMethods = o.GetAllowMethods := rfl

lemma newHandler_getAllowHeaders (o : Options) :
    o.NewHandler.GetAllowHeaders = o.GetAllowHeaders := rfl

lemma newHandler_getExposeHeaders (o : Options) :
    o.NewHandler.GetExposeHeaders = o.GetExposeHeaders := rfl

lemma newHandler_getMaxAge (o : Options) :
    o.NewHandler.GetMaxAge = o.GetMaxAge := rfl

lemma setIf_empty (rw : ResponseWriter) (k : String) : setIf rw k "" = rw := by
  unfold setIf
  simp

lemma neq_am_ma : HeaderAllowMethods ≠ HeaderMaxAge := by decide

lemma neq_am_ah : HeaderAllowMethods ≠ HeaderAllowHeaders := by decide

lemma neq_am_ac : HeaderAllowMethods ≠ HeaderAllowCredentials := by decide

lemma neq_am_ao : HeaderAllowMethods ≠ HeaderAllowOrigin := by decide

lemma neq_am_vary : HeaderAllowMethods ≠ HeaderVary := by decide

lemma neq_ah_ma : HeaderAllowHeaders ≠ HeaderMaxAge := by decide

lemma neq_ah_am : HeaderAllowHeaders ≠ HeaderAllowMethods := by decide

lemma neq_ah_ac : HeaderAllowHeaders ≠ HeaderAllowCredentials := by decide

lemma neq_ah_ao : HeaderAllowHeaders ≠ HeaderAllowOrigin := by decide

lemma neq_ah_vary : HeaderAllowHeaders ≠ HeaderVary := by decide

lemma neq_ma_ah : HeaderMaxAge ≠ HeaderAllowHeaders := by decide

lemma neq_ma_am : HeaderMaxAge ≠ HeaderAllowMethods := by decide

lemma neq_ma_ac : HeaderMaxAge ≠ HeaderAllowCredentials := by decide

lemma neq_ma_ao : HeaderMaxAge ≠ HeaderAllowOrigin := by decide

lemma neq_ma_vary : HeaderMaxAge ≠ HeaderVary := by decide

lemma neq_ao_ma : HeaderAllowOrigin ≠ HeaderMaxAge := by decide

lemma neq_ao_ah : HeaderAllowOrigin ≠ HeaderAllowHeaders := by decide

lemma neq_ao_am : HeaderAllowOrigin ≠ HeaderAllowMethods := by decide

lemma neq_ao_ac : HeaderAllowOrigin ≠ HeaderAllowCredentials := by decide

lemma neq_ao_vary : HeaderAllowOrigin ≠ HeaderVary := by decide

lemma neq_ao_eh : HeaderAllowOrigin ≠ HeaderExposeHeaders := by decide

/-! ### Claim theorems -/

/-- C1: `IsPreflight` returns true iff the method is OPTIONS and the Origin,
Access-Control-Request-Method and Access-Control-Request-Headers headers are
all non-empty; if any one of the four conditions fails it returns false. -/
theorem isPreflight_characterization (r : Request) :
    r.IsPreflight = true ↔
      (r.Method = MethodOptions ∧ r.Origin ≠ "" ∧
       r.RequestMethod ≠ "" ∧ r.RequestHeaders ≠ "") := by
  simp [Request.IsPreflight, Bool.and_eq_true, and_assoc]

/-- C3: `GetAllowOrigin` returns the wildcard as soon as it occurs anywhere
in the configured origin list (regardless of literal matches elsewhere),
otherwise the request's Origin when some entry equals it exactly, and the
empty string when nothing matches. -/
theorem getAllowOrigin_characterization (o : Options) (r : Request) :
    o.GetAllowOrigin r =
      if HeaderValueWildcard ∈ o.AllowOrigins then HeaderValueWildcard
      else if r.Origin ∈ o.AllowOrigins then r.Origin
      else "" := by
  unfold Options.GetAllowOrigin
  by_cases hw : HeaderValueWildcard ∈ o.AllowOrigins
  · rw [if_pos hw, allowOriginLoop_of_wildcard_mem _ _ _ hw]
  · rw [if_neg hw, allowOriginLoop_of_not_wildcard _ _ _ hw]

/-- C4, counterexample: the claim that `GetVary` yields `"Origin"` exactly
when more than one distinct origin is configured is false: the configuration
with origin list `["a", "a"]` has a single distinct origin, yet `GetVary`
returns `"Origin"` because the list has length 2. -/
theorem getVary_distinct_counterexample :
    ¬ ∀ o : Options,
        o.GetVary =
          if 1 < o.AllowOrigins.dedup.length then HeaderOrigin else "" :=
  fun h => absurd (h ⟨false, [], [], ["a", "a"], [], 5, []⟩) (by decide)

/-- C4, amended: `GetVary` returns `"Origin"` iff the configured origin list
has more than one entry, duplicates counted separately; a list of length at
most one (in particular a single origin, or the wildcard alone) yields the
empty string. -/
theorem getVary_length_characterization (o : Options) :
    (o.GetVary = HeaderOrigin ↔ 1 < o.AllowOrigins.length) ∧
    (o.GetVary = "" ↔ o.AllowOrigins.length ≤ 1) := by
  unfold Options.GetVary
  by_cases h : 1 < o.AllowOrigins.length
  · rw [if_pos h]
    exact ⟨⟨fun _ => h, fun _ => rfl⟩,
      ⟨fun he => absurd he (by decide), fun hle => absurd h (by omega)⟩⟩
  · rw [if_neg h]
    exact ⟨⟨fun he => absurd he (by decide), fun hgt => absurd hgt h⟩,
      ⟨fun _ => by omega, fun _ => rfl⟩⟩

/-- C5: each of `GetAllowMethods`, `GetAllowHeaders`, `GetExposeHeaders`
returns the wildcard when it occurs anywhere in its configured list,
otherwise the list joined with `", "` in configured order; an empty
configured list yields the empty string. -/
theorem listValuedRules_characterization (o : Options) :
    (o.GetAllowMethods =
      if HeaderValueWildcard ∈ o.AllowMethods then HeaderValueWildcard
      else String.intercalate ", " o.AllowMethods) ∧
    (o.GetAllowHeaders =
      if HeaderValueWildcard ∈ o.AllowHeaders then HeaderValueWildcard
      else String.intercalate ", " o.AllowHeaders) ∧
    (o.GetExposeHeaders =
      if HeaderValueWildcard ∈ o.ExposeHeaders then HeaderValueWildcard
      else String.intercalate ", " o.ExposeHeaders) ∧
    Options.GetAllowMethods { o with AllowMethods := [] } = "" ∧
    Options.GetAllowHeaders { o with AllowHeaders := [] } = "" ∧
    Options.GetExposeHeaders { o with ExposeHeaders := [] } = "" := by
  have key : ∀ l : List String,
      (if wildcardScan l then HeaderValueWildcard
       else String.intercalate ", " l) =
        if HeaderValueWildcard ∈ l then HeaderValueWildcard
        else String.intercalate ", " l := by
    intro l
    by_cases hm : HeaderValueWildcard ∈ l
    · rw [if_pos hm, if_pos ((wildcardScan_iff l).mpr hm)]
    · rw [if_neg hm, if_neg (fun hc => hm ((wildcardScan_iff l).mp hc))]
  exact ⟨key o.AllowMethods, key o.AllowHeaders, key o.ExposeHeaders,
    rfl, rfl, rfl⟩

/-- C7: `GetMaxAge` is the decimal string rendering of the configured
integer, for negative values as well; it takes no request argument, so the
value cannot depend on the request. -/
theorem getMaxAge_decimal (o : Options) :
    o.GetMaxAge = Int.repr o.MaxAge ∧
    Options.GetMaxAge { o with MaxAge := 5 } = "5" ∧
    Options.GetMaxAge { o with MaxAge := -1 } = "-1" := by
  have h5 : Int.repr (5 : Int) = "5" := by decide
  have h1 : Int.repr (-1 : Int) = "-1" := by decide
  exact ⟨rfl, h5, h1⟩

/-- C9: each header-decision rule, viewed as a Go method call returning its
result and the receiver's state after the call, leaves the `Options`
(configuration and cache) unchanged, and a second invocation on the
post-call state returns the same result. -/
theorem rules_pure_idempotent (o : Options) (r : Request) :
    ((GetAllowOriginCall o r).2 = o ∧
      (GetAllowOriginCall (GetAllowOriginCall o r).2 r).1 =
        (GetAllowOriginCall o r).1) ∧
    ((GetAllowCredentialsCall o).2 = o ∧
      (GetAllowCredentialsCall (GetAllowCredentialsCall o).2).1 =
        (GetAllowCredentialsCall o).1) ∧
    ((GetAllowMethodsCall o).2 = o ∧
      (GetAllowMethodsCall (GetAllowMethodsCall o).2).1 =
        (GetAllowMethodsCall o).1) ∧
    ((GetAllowHeadersCall o).2 = o ∧
      (GetAllowHeadersCall (GetAllowHeadersCall o).2).1 =
        (GetAllowHeadersCall o).1) ∧
    ((GetExposeHeadersCall o).2 = o ∧
      (GetExposeHeadersCall (GetExposeHeadersCall o).2).1 =
        (GetExposeHeadersCall o).1) ∧
    ((GetMaxAgeCall o).2 = o ∧
      (GetMaxAgeCall (GetMaxAgeCall o).2).1 = (GetMaxAgeCall o).1) ∧
    ((GetVaryCall o).2 = o ∧
      (GetVaryCall (GetVaryCall o).2).1 = (GetVaryCall o).1) :=
  ⟨⟨rfl, rfl⟩, ⟨rfl, rfl⟩, ⟨rfl, rfl⟩, ⟨rfl, rfl⟩, ⟨rfl, rfl⟩,
    ⟨rfl, rfl⟩, ⟨rfl, rfl⟩⟩

/-- C2: on a preflight request the handler sets Allow-Methods, Allow-Headers
and Max-Age from the cache (each only when the cached value is non-empty,
leaving the header untouched otherwise), writes status 204 and never calls
the next-stage handler; on a non-preflight request the next-stage handler is
called exactly once; it is never called more than once. -/
theorem pluginServeHTTP_preflight_terminates (o : Options) (req : Request)
    (rw : ResponseWriter) :
    (pluginServeHTTP o req rw).2 ≤ 1 ∧
    (req.IsPreflight = true →
      (pluginServeHTTP o req rw).2 = 0 ∧
      (pluginServeHTTP o req rw).1.status = some 204 ∧
      headerGet (pluginServeHTTP o req rw).1 HeaderAllowMethods =
        (if mapGet o.cache HeaderAllowMethods != "" then
          mapGet o.cache HeaderAllowMethods
         else headerGet rw HeaderAllowMethods) ∧
      headerGet (pluginServeHTTP o req rw).1 HeaderAllowHeaders =
        (if mapGet o.cache HeaderAllowHeaders != "" then
          mapGet o.cache HeaderAllowHeaders
         else headerGet rw HeaderAllowHeaders) ∧
      headerGet (pluginServeHTTP o req rw).1 HeaderMaxAge =
        (if mapGet o.cache HeaderMaxAge != "" then
          mapGet o.cache HeaderMaxAge
         else headerGet rw HeaderMaxAge)) ∧
    (req.IsPreflight = false → (pluginServeHTTP o req rw).2 = 1) := by
  cases hb : req.IsPreflight with
  | true =>
    have hpe : pluginServeHTTP o req rw = (serveHTTP o req rw, 0) := by
      simp only [pluginServeHTTP]
      rw [if_pos hb]
    rw [serveHTTP_preflight_eq o req rw hb] at hpe
    refine ⟨?_, fun _ => ⟨?_, ?_, ?_, ?_, ?_⟩, fun hf => by simp [hb] at hf⟩
    · simp only [hpe]
      exact Nat.zero_le 1
    · simp only [hpe]
    · simp only [hpe]
    · simp only [hpe, headerGet_mk_status, headerGet_setIf_ne _ _ _ _ neq_am_ma,
        headerGet_setIf_ne _ _ _ _ neq_am_ah, headerGet_setIf_self,
        headerGet_setIf_ne _ _ _ _ neq_am_ac, headerGet_setIf_ne _ _ _ _ neq_am_ao,
        headerGet_addIf_ne _ _ _ _ neq_am_vary]
    · simp only [hpe, headerGet_mk_status, headerGet_setIf_ne _ _ _ _ neq_ah_ma,
        headerGet_setIf_self, headerGet_setIf_ne _ _ _ _ neq_ah_am,
        headerGet_setIf_ne _ _ _ _ neq_ah_ac, headerGet_setIf_ne _ _ _ _ neq_ah_ao,
        headerGet_addIf_ne _ _ _ _ neq_ah_vary]
    · simp only [hpe, headerGet_mk_status, headerGet_setIf_self,
        headerGet_setIf_ne _ _ _ _ neq_ma_ah, headerGet_setIf_ne _ _ _ _ neq_ma_am,
        headerGet_setIf_ne _ _ _ _ neq_ma_ac, headerGet_setIf_ne _ _ _ _ neq_ma_ao,
        headerGet_addIf_ne _ _ _ _ neq_ma_vary]
  | false =>
    have hpe : pluginServeHTTP o req rw = (serveHTTP o req rw, 1) := by
      simp only [pluginServeHTTP]
      rw [if_neg (by simp [hb])]
    refine ⟨?_, fun ht => by simp [hb] at ht, fun _ => ?_⟩
    · simp only [hpe]
      exact Nat.le_refl 1
    · simp only [hpe]

/-- C2, witness: a concrete preflight request through the plugin yields
status 204 and zero next-stage calls. -/
theorem pluginServeHTTP_preflight_terminates_witness :
    (pluginServeHTTP (Options.NewHandler ⟨false, ["X-A"], ["GET"], ["*"], [], 5, []⟩)
        ⟨"OPTIONS", "https://example.com", "GET", "X-A"⟩ ⟨[], none⟩).2 = 0 ∧
    (pluginServeHTTP (Options.NewHandler ⟨false, ["X-A"], ["GET"], ["*"], [], 5, []⟩)
        ⟨"OPTIONS", "https://example.com", "GET", "X-A"⟩ ⟨[], none⟩).1.status =
      some 204 :=
  ⟨((pluginServeHTTP_preflight_terminates _ _ _).2.1 (by decide)).1,
    ((pluginServeHTTP_preflight_terminates _ _ _).2.1 (by decide)).2.1⟩

/-- C6: the four values `NewHandler` stores in the cache are exactly what
`GetAllowMethods`, `GetAllowHeaders`, `GetExposeHeaders` and `GetMaxAge`
compute from the same configuration, and the cached-value handler produces
the same response as one that recomputes these rules on each request. -/
theorem newHandler_cache_refinement (o : Options) (req : Request)
    (rw : ResponseWriter) :
    mapGet o.NewHandler.cache HeaderAllowMethods = o.GetAllowMethods ∧
    mapGet o.NewHandler.cache HeaderAllowHeaders = o.GetAllowHeaders ∧
    mapGet o.NewHandler.cache HeaderExposeHeaders = o.GetExposeHeaders ∧
    mapGet o.NewHandler.cache HeaderMaxAge = o.GetMaxAge ∧
    serveHTTP o.NewHandler req rw = serveHTTPRecompute o.NewHandler req rw := by
  refine ⟨rfl, rfl, rfl, rfl, ?_⟩
  simp only [serveHTTP, serveHTTPRecompute, mapGet_newHandler_allowMethods,
    mapGet_newHandler_allowHeaders, mapGet_newHandler_exposeHeaders,
    mapGet_newHandler_maxAge, newHandler_getAllowMethods,
    newHandler_getAllowHeaders, newHandler_getExposeHeaders,
    newHandler_getMaxAge]

/-- C8: the decision rules are total functions returning the empty string to
mean omission; with an empty `allowOrigins` list, `GetAllowOrigin` returns
the empty string for every request and the handler leaves the
Access-Control-Allow-Origin response header untouched. -/
theorem emptyOrigins_never_allowOrigin (o : Options) (r : Request)
    (rw : ResponseWriter) (h : o.AllowOrigins = []) :
    o.GetAllowOrigin r = "" ∧
    headerGet (serveHTTP o r rw) HeaderAllowOrigin =
      headerGet rw HeaderAllowOrigin := by
  have h1 : o.GetAllowOrigin r = "" := by
    unfold Options.GetAllowOrigin
    rw [h]
    rfl
  refine ⟨h1, ?_⟩
  cases hb : r.IsPreflight with
  | true =>
    rw [serveHTTP_preflight_eq o r rw hb, headerGet_mk_status,
      headerGet_setIf_ne _ _ _ _ neq_ao_ma, headerGet_setIf_ne _ _ _ _ neq_ao_ah,
      headerGet_setIf_ne _ _ _ _ neq_ao_am, headerGet_setIf_ne _ _ _ _ neq_ao_ac,
      h1, setIf_empty, headerGet_addIf_ne _ _ _ _ neq_ao_vary]
  | false =>
    rw [serveHTTP_nonpreflight_eq o r rw hb,
      headerGet_setIf_ne _ _ _ _ neq_ao_eh, headerGet_setIf_ne _ _ _ _ neq_ao_ac,
      h1, setIf_empty, headerGet_addIf_ne _ _ _ _ neq_ao_vary]

/-- C8, witness: a concrete policy with an empty origin list emits no
Allow-Origin header for a concrete request. -/
theorem emptyOrigins_never_allowOrigin_witness :
    Options.GetAllowOrigin ⟨false, [], [], [], [], 5, []⟩
        ⟨"GET", "https://example.com", "", ""⟩ = "" ∧
    headerGet (serveHTTP ⟨false, [], [], [], [], 5, []⟩
        ⟨"GET", "https://example.com", "", ""⟩ ⟨[], none⟩) HeaderAllowOrigin =
      headerGet ⟨[], none⟩ HeaderAllowOrigin :=
  emptyOrigins_never_allowOrigin ⟨false, [], [], [], [], 5, []⟩
    ⟨"GET", "https://example.com", "", ""⟩ ⟨[], none⟩ rfl

/-- C10: `GetMaxAge` is never the empty string (a decimal rendering always
has at least one character), so the non-empty guard in the preflight branch
always passes and every preflight response carries the cached Max-Age
value. -/
theorem preflight_always_maxAge (o : Options) (req : Request)
    (rw : ResponseWriter) :
    o.GetMaxAge ≠ "" ∧
    mapGet o.NewHandler.cache HeaderMaxAge ≠ "" ∧
    (req.IsPreflight = true →
      headerGet (serveHTTP o.NewHandler req rw) HeaderMaxAge = o.GetMaxAge) := by
  have hne : o.GetMaxAge ≠ "" := int_repr_ne_empty o.MaxAge
  refine ⟨hne, by rw [mapGet_newHandler_maxAge]; exact hne, fun hp => ?_⟩
  rw [serveHTTP_preflight_eq _ req rw hp, headerGet_mk_status,
    headerGet_setIf_self, mapGet_newHandler_maxAge, if_pos (bne_iff_ne.mpr hne)]

/-- C10, witness: a concrete preflight response carries the Max-Age value,
here for the default configuration value 5. -/
theorem preflight_always_maxAge_witness :
    headerGet (serveHTTP (Options.NewHandler ⟨false, [], [], ["*"], [], 5, []⟩)
        ⟨"OPTIONS", "https://example.com", "GET", "Content-Type"⟩
        ⟨[], none⟩) HeaderMaxAge =
      Options.GetMaxAge ⟨false, [], [], ["*"], [], 5, []⟩ :=
  (preflight_always_maxAge ⟨false, [], [], ["*"], [], 5, []⟩
    ⟨"OPTIONS", "https://example.com", "GET", "Content-Type"⟩
    ⟨[], none⟩).2.2 (by decide)

end TraefikCors
